import Mathlib

/-!
Verification of the astro-cache semantic layer (src/index.js) against its
natural-language specification.  JavaScript values are embedded as `JVal`
(numbers restricted to integers; IEEE floats are out of scope), the external
Redis store as an association-list state together with a trace of issued
commands, and `JSON.stringify` / `JSON.parse` as an executable renderer and
recursive-descent parser over character lists.
-/

/-- Embedding of the JavaScript values handled by the cache layer.
Numbers are modelled as integers (the repository's tests only exercise
integral numbers; IEEE floating point is not modelled). -/
inductive JVal where
  | undef : JVal
  | null : JVal
  | bool : Bool → JVal
  | num : Int → JVal
  | str : String → JVal
  | arr : List JVal → JVal
  | obj : List (String × JVal) → JVal

/-- lodash `_.isNil`: true exactly on `undefined` and `null`. -/
def isNil : JVal → Bool
  | .undef => true
  | .null => true
  | _ => false

/-- lodash `_.isString`. -/
def isString : JVal → Bool
  | .str _ => true
  | _ => false

/-- JavaScript truthiness of an embedded value (`NaN` does not arise since
numbers are integers). -/
def truthy : JVal → Bool
  | .undef => false
  | .null => false
  | .bool b => b
  | .num i => !(i == 0)
  | .str s => !(s == "")
  | .arr _ => true
  | .obj _ => true

/-- `validateKey` from src/index.js: a key is valid iff it is neither nil nor
of non-string type. -/
def validateKey (key : JVal) : Bool :=
  if isNil key || !(isString key) then false else true

mutual

/-- A value is JSON-representable when no `undefined` occurs in it. -/
def isJson : JVal → Bool
  | .undef => false
  | .null => true
  | .bool _ => true
  | .num _ => true
  | .str _ => true
  | .arr xs => isJsonList xs
  | .obj fs => isJsonFields fs

def isJsonList : List JVal → Bool
  | [] => true
  | x :: xs => isJson x && isJsonList xs

def isJsonFields : List (String × JVal) → Bool
  | [] => true
  | (_, v) :: fs => isJson v && isJsonFields fs

end

/-! Codec, write side: a model of `JSON.stringify` producing a character
list.  Strings escape the quote and the backslash; all other characters are
emitted literally (real `JSON.stringify` additionally escapes control
characters, which decode back to themselves, so the observable roundtrip
agrees).  An `undefined` nested in an array serializes as `null` exactly as
`JSON.stringify` does; an `undefined`-valued object property is here also
rendered as `null`, whereas `JSON.stringify` omits the property — every
claim quantifies over JSON-representable values, where neither case
arises. -/

/-- Decimal digit character for `d < 10`. -/
def digitChar : Nat → Char
  | 0 => '0'
  | 1 => '1'
  | 2 => '2'
  | 3 => '3'
  | 4 => '4'
  | 5 => '5'
  | 6 => '6'
  | 7 => '7'
  | 8 => '8'
  | _ => '9'

/-- Decimal digits, fuelled so that the definition is structural: `fuel ≥ n`
always suffices. -/
def natCharsAux : Nat → Nat → List Char
  | 0, n => [digitChar n]
  | fuel + 1, n =>
    if n < 10 then [digitChar n]
    else natCharsAux fuel (n / 10) ++ [digitChar (n % 10)]

/-- Decimal digits of a natural number, most significant first. -/
def natChars (n : Nat) : List Char :=
  natCharsAux n n

/-- Decimal rendering of an integer. -/
def intChars : Int → List Char
  | .ofNat n => natChars n
  | .negSucc m => '-' :: natChars (m + 1)

/-- JSON string escaping of one character. -/
def escChar (c : Char) : List Char :=
  if c = '"' then ['\\', '"']
  else if c = '\\' then ['\\', '\\']
  else [c]

/-- JSON string escaping of a character list. -/
def escList : List Char → List Char
  | [] => []
  | c :: cs => escChar c ++ escList cs

/-- Rendering of a JSON string literal, quotes included. -/
def renderStr (s : String) : List Char :=
  '"' :: (escList s.data ++ ['"'])

mutual

/-- Model of `JSON.stringify` (body; see the module note on `undefined`). -/
def render : JVal → List Char
  | .undef => "null".data
  | .null => "null".data
  | .bool true => "true".data
  | .bool false => "false".data
  | .num i => intChars i
  | .str s => renderStr s
  | .arr xs => '[' :: (renderArr xs ++ [']'])
  | .obj fs => '{' :: (renderFields fs ++ ['}'])

/-- Comma-separated rendering of array elements. -/
def renderArr : List JVal → List Char
  | [] => []
  | [x] => render x
  | x :: y :: xs => render x ++ ',' :: renderArr (y :: xs)

/-- Comma-separated rendering of object properties. -/
def renderFields : List (String × JVal) → List Char
  | [] => []
  | [(k, v)] => renderStr k ++ ':' :: render v
  | (k, v) :: f :: fs => (renderStr k ++ ':' :: render v) ++ ',' :: renderFields (f :: fs)

end

/-- Model of `JSON.stringify` as used by `put`: `undefined` at top level
has no JSON text (the call evaluates to `undefined`). -/
def stringify : JVal → Option String
  | .undef => none
  | v => some (String.mk (render v))

/-! Codec, read side: a recursive-descent model of `JSON.parse`.  It accepts
everything `JSON.stringify` produces; on other texts it is slightly more
lenient than the host parser (no whitespace skipping, no float/exponent
forms, trailing commas tolerated) — the cache only ever parses texts its own
write path produced, and the claims touch no other input. -/

/-- Numeric value of a decimal digit character. -/
def charDigit (c : Char) : Nat :=
  c.toNat - 48

/-- Greedy decimal-digit accumulation. -/
def parseNatAux : List Char → Nat → Nat × List Char
  | [], acc => (acc, [])
  | c :: cs, acc =>
    if c.isDigit then parseNatAux cs (acc * 10 + charDigit c) else (acc, c :: cs)

/-- Parse a nonempty run of decimal digits. -/
def parseNum : List Char → Option (Nat × List Char)
  | [] => none
  | c :: cs =>
    if c.isDigit then some (parseNatAux (c :: cs) 0) else none

/-- JSON escape sequences understood on the read side (`\uXXXX` is not
among them: the write side never emits it). -/
def unescChar : Char → Option Char
  | 'n' => some '\n'
  | 't' => some '\t'
  | 'r' => some '\r'
  | 'b' => some (Char.ofNat 8)
  | 'f' => some (Char.ofNat 12)
  | '/' => some '/'
  | '"' => some '"'
  | '\\' => some '\\'
  | _ => none

/-- Parse a string-literal body up to the closing quote, the opening quote
already consumed; `acc` holds the decoded characters in reverse. -/
def parseStrAux : List Char → List Char → Option (String × List Char)
  | [], _ => none
  | c :: cs, acc =>
    if c = '"' then some (String.mk acc.reverse, cs)
    else if c = '\\' then
      match cs with
      | [] => none
      | e :: cs' =>
        match unescChar e with
        | some d => parseStrAux cs' (d :: acc)
        | none => none
    else parseStrAux cs (c :: acc)

/-- Match an expected literal character sequence. -/
def expectChars : List Char → List Char → Option (List Char)
  | [], rest => some rest
  | c :: cs, rest =>
    match rest with
    | [] => none
    | d :: rest' => if c = d then expectChars cs rest' else none

/-- Prepend a parsed element to the outcome of parsing the remaining
elements. -/
def itemsCons (v : JVal) : Option (List JVal × List Char) → Option (List JVal × List Char)
  | some (vs, rest) => some (v :: vs, rest)
  | none => none

/-- Prepend a parsed property to the outcome of parsing the remaining
properties. -/
def fieldsCons (k : String) (v : JVal) :
    Option (List (String × JVal) × List Char) → Option (List (String × JVal) × List Char)
  | some (fs, rest) => some ((k, v) :: fs, rest)
  | none => none

/-- The three syntactic categories of the recursive-descent parser, at one
fuel level: a value, the elements of an array after the opening bracket, and
the properties of an object after the opening brace. -/
structure Parsers where
  val : List Char → Option (JVal × List Char)
  items : List Char → Option (List JVal × List Char)
  props : List Char → Option (List (String × JVal) × List Char)

/-- One step of value parsing, the sub-parsers supplied explicitly. -/
def valStep (p : Parsers) (input : List Char) : Option (JVal × List Char) :=
  match input with
  | [] => none
  | c :: cs =>
    if c = 'n' then
      match expectChars ['u', 'l', 'l'] cs with
      | some rest => some (.null, rest)
      | none => none
    else if c = 't' then
      match expectChars ['r', 'u', 'e'] cs with
      | some rest => some (.bool true, rest)
      | none => none
    else if c = 'f' then
      match expectChars ['a', 'l', 's', 'e'] cs with
      | some rest => some (.bool false, rest)
      | none => none
    else if c = '"' then
      match parseStrAux cs [] with
      | some (s, rest) => some (.str s, rest)
      | none => none
    else if c = '[' then
      match p.items cs with
      | some (xs, rest) => some (.arr xs, rest)
      | none => none
    else if c = '{' then
      match p.props cs with
      | some (fs, rest) => some (.obj fs, rest)
      | none => none
    else if c = '-' then
      match parseNum cs with
      | some (n, rest) => some (.num (-(n : Int)), rest)
      | none => none
    else if c.isDigit then
      match parseNum (c :: cs) with
      | some (n, rest) => some (.num (n : Int), rest)
      | none => none
    else none

/-- One step of array-element parsing, closing bracket included. -/
def itemsStep (p : Parsers) (input : List Char) : Option (List JVal × List Char) :=
  match p.val input with
  | some (v, rest) =>
    match rest with
    | ',' :: rest' => itemsCons v (p.items rest')
    | ']' :: rest' => some ([v], rest')
    | _ => none
  | none =>
    match input with
    | ']' :: rest => some ([], rest)
    | _ => none

/-- One step of object-property parsing, closing brace included. -/
def fieldsStep (p : Parsers) (input : List Char) : Option (List (String × JVal) × List Char) :=
  match input with
  | '"' :: cs =>
    match parseStrAux cs [] with
    | some (k, r1) =>
      match r1 with
      | ':' :: r2 =>
        match p.val r2 with
        | some (v, rest) =>
          match rest with
          | ',' :: rest' => fieldsCons k v (p.props rest')
          | '}' :: rest' => some ([(k, v)], rest')
          | _ => none
        | none => none
      | _ => none
    | none => none
  | '}' :: rest => some ([], rest)
  | _ => none

/-- The parser with the given amount of fuel; any fuel of at least the input
length plus one suffices. -/
def parserAt : Nat → Parsers
  | 0 => ⟨fun _ => none, fun _ => none, fun _ => none⟩
  | fuel + 1 =>
    ⟨valStep (parserAt fuel), itemsStep (parserAt fuel), fieldsStep (parserAt fuel)⟩

/-- Fuelled model of `JSON.parse` on one value. -/
def parseVal (fuel : Nat) (input : List Char) : Option (JVal × List Char) :=
  (parserAt fuel).val input

/-- Fuelled parsing of array elements after the opening bracket. -/
def parseItems (fuel : Nat) (input : List Char) : Option (List JVal × List Char) :=
  (parserAt fuel).items input

/-- Fuelled parsing of object properties after the opening brace. -/
def parseFields (fuel : Nat) (input : List Char) : Option (List (String × JVal) × List Char) :=
  (parserAt fuel).props input

/-- Model of `JSON.parse` on a whole text: the parsed value must consume the
input; anything else is a parse error (the `SyntaxError` throw in source
becomes `none`). -/
def jsonParse (s : String) : Option JVal :=
  match parseVal (s.data.length + 1) s.data with
  | some (v, []) => some v
  | _ => none

/-! The external store.  Its state is a pair of association lists — scalar
entries (key to serialized payload) and hash entries (key to a raw
field map).  Every operation additionally records the commands it put on
the wire, so that short-circuiting and fire-and-forget behaviour are
observable.  A `none` outcome of a command models a rejected promise
(connection down, wrong type, or an invalid raw argument). -/

/-- Association-list lookup, first match wins. -/
def alookup {α : Type} : List (String × α) → String → Option α
  | [], _ => none
  | (k, v) :: tl, k' => if k = k' then some v else alookup tl k'

/-- Remove every binding of a key. -/
def aerase {α : Type} (l : List (String × α)) (k : String) : List (String × α) :=
  l.filter (fun p => !(p.1 == k))

/-- State of the external Redis store.  Expiration timers are out of scope
(time is not modelled); the `EX` argument still appears on the wire. -/
structure RedisSt where
  kv : List (String × String)
  hv : List (String × List (String × String))

def emptySt : RedisSt := ⟨[], []⟩

/-- Commands issued to the store, with the raw key value handed to the
client. -/
inductive Cmd where
  | getC (key : JVal)
  | setC (key : JVal) (payload : String) (ex : Option JVal)
  | delC (key : JVal)
  | existsC (key : JVal)
  | hmgetC (key : JVal) (fields : List String)
  | hmsetC (key : JVal) (data : List (String × String))
  | expireC (key : JVal) (t : JVal)

/-- Reply to `GET`: `none` is a rejected command, `some none` a nil reply. -/
def redisGet (ok : Bool) (st : RedisSt) (key : JVal) : Option (Option String) :=
  match ok, key with
  | true, .str s => some (alookup st.kv s)
  | _, _ => none

/-- Effect of `SET` (a set key loses any previous hash value). -/
def redisSet (ok : Bool) (st : RedisSt) (key : JVal) (payload : String) : Option RedisSt :=
  match ok, key with
  | true, .str s => some ⟨(s, payload) :: aerase st.kv s, aerase st.hv s⟩
  | _, _ => none

/-- Effect of `DEL`. -/
def redisDel (ok : Bool) (st : RedisSt) (key : JVal) : Option RedisSt :=
  match ok, key with
  | true, .str s => some ⟨aerase st.kv s, aerase st.hv s⟩
  | _, _ => none

/-- Reply to `EXISTS`: the number of existing keys asked about. -/
def redisExists (ok : Bool) (st : RedisSt) (key : JVal) : Option Nat :=
  match ok, key with
  | true, .str s =>
    some (if (alookup st.kv s).isSome || (alookup st.hv s).isSome then 1 else 0)
  | _, _ => none

/-- Reply to `HMGET`: per requested field the raw stored text or nil,
positionally aligned; asking a scalar key is a WRONGTYPE rejection. -/
def redisHmget (ok : Bool) (st : RedisSt) (key : JVal) (fields : List String) :
    Option (List JVal) :=
  match ok, key with
  | true, .str s =>
    if (alookup st.kv s).isSome then none
    else
      some (fields.map (fun f =>
        match alookup ((alookup st.hv s).getD []) f with
        | some v => JVal.str v
        | none => JVal.null))
  | _, _ => none

/-- Overwrite the given fields of a hash, keeping the others. -/
def hmergeFields (old : List (String × String)) : List (String × String) → List (String × String)
  | [] => old
  | (f, v) :: rest => hmergeFields ((f, v) :: aerase old f) rest

/-- Effect of `HMSET`; writing over a scalar key is a WRONGTYPE
rejection. -/
def redisHmset (ok : Bool) (st : RedisSt) (key : JVal) (data : List (String × String)) :
    Option RedisSt :=
  match ok, key with
  | true, .str s =>
    if (alookup st.kv s).isSome then none
    else some ⟨st.kv, (s, hmergeFields ((alookup st.hv s).getD []) data) :: aerase st.hv s⟩
  | _, _ => none

/-! The public cache operations of src/index.js.  Each returns its
JavaScript result together with the issued command trace (and the updated
store where the operation writes).  The `ok` flag says whether the store is
reachable; a command issued while it is down rejects, which each operation
absorbs exactly as its source `try`/`catch` does. -/

/-- Operation `get`: `null` on an invalid key before any command; otherwise
one `GET`, decoding a nil reply, a rejected command or a `JSON.parse` throw
all to `undefined`. -/
def get (ok : Bool) (st : RedisSt) (key : JVal) : JVal × List Cmd :=
  if !validateKey key then (.null, [])
  else
    match redisGet ok st key with
    | none => (.undef, [.getC key])
    | some none => (.undef, [.getC key])
    | some (some txt) =>
      match jsonParse txt with
      | some v => (v, [.getC key])
      | none => (.undef, [.getC key])

/-- Operation `put`: false on an invalid key before any command; otherwise
`SET key payload` with an `EX` argument exactly when the expiry is not nil;
any rejection is caught and reported as false. -/
def put (ok : Bool) (st : RedisSt) (key value expiry : JVal) : Bool × List Cmd × RedisSt :=
  if !validateKey key then (false, [], st)
  else
    match stringify value with
    | none => (false, [], st)
    | some payload =>
      let ex := if !(isNil expiry) then some expiry else none
      match redisSet ok st key payload with
      | some st' => (true, [.setC key payload ex], st')
      | none => (false, [.setC key payload ex], st)

/-- Operation `destroy` (the spec's `forget`): issues `DEL` with the raw
key, fire-and-forget — no validation, no result, a rejection is dropped. -/
def destroy (ok : Bool) (st : RedisSt) (key : JVal) : List Cmd × RedisSt :=
  ([.delC key],
    match redisDel ok st key with
    | some st' => st'
    | none => st)

/-- Operation `has`: issues `EXISTS` with the raw key — no validation; a
truthy count is true, anything else (including a rejection) is false. -/
def has (ok : Bool) (st : RedisSt) (key : JVal) : Bool × List Cmd :=
  match redisExists ok st key with
  | some n => (if n != 0 then true else false, [.existsC key])
  | none => (false, [.existsC key])

/-- Operation `pop` (the spec's `pull`): `get`, then `destroy` only when the
result is not nil.  The surrounding `try`/`catch` is unreachable since
neither callee throws synchronously. -/
def pop (ok : Bool) (st : RedisSt) (key : JVal) : JVal × List Cmd × RedisSt :=
  let (result, t) := get ok st key
  if !(isNil result) then
    let (td, st') := destroy ok st key
    (result, t ++ td, st')
  else (result, t, st)

/-- The third argument of `remember`: a literal value, or a zero-argument
producer whose invocation resolves to a value or throws/rejects (`none`). -/
inductive DefaultValue where
  | lit : JVal → DefaultValue
  | producer : Option JVal → DefaultValue

/-- Operation `remember`: `null` on an invalid key; the cached value when
`get` yields a non-nil result; otherwise the catch block runs the default:
a producer is invoked (the last component reports that), a throwing producer
yields `undefined`, and a non-nil result with a non-nil expiry triggers a
fire-and-forget `put`. -/
def remember (ok : Bool) (st : RedisSt) (key expiry : JVal) (defaultValue : DefaultValue) :
    JVal × List Cmd × RedisSt × Bool :=
  if !validateKey key then (.null, [], st, false)
  else
    let (cached, t) := get ok st key
    if !(isNil cached) then (cached, t, st, false)
    else
      match defaultValue with
      | .lit v =>
        if isNil v then (.undef, t, st, false)
        else if !(isNil expiry) then
          let (_, tp, st') := put ok st key v expiry
          (v, t ++ tp, st', false)
        else (v, t, st, false)
      | .producer out =>
        match out with
        | none => (.undef, t, st, true)
        | some v =>
          if !(isNil expiry) && !(isNil v) then
            let (_, tp, st') := put ok st key v expiry
            (v, t ++ tp, st', true)
          else (v, t, st, true)

/-- Operation `multiget`: an empty object on an invalid key before any
command; otherwise one `HMGET`, whose raw field values are returned
positionally, a rejection being caught as `undefined`. -/
def multiget (ok : Bool) (st : RedisSt) (key : JVal) (fields : List String) :
    JVal × List Cmd :=
  if !validateKey key then (.obj [], [])
  else
    match redisHmget ok st key fields with
    | some vs => (.arr vs, [.hmgetC key fields])
    | none => (.undef, [.hmgetC key fields])

/-- Operation `multiput`: false on an invalid key before any command;
otherwise `HMSET` (raw field values, no JSON encoding), then — only when the
expiry is truthy — a fire-and-forget `EXPIRE`. -/
def multiput (ok : Bool) (st : RedisSt) (key : JVal) (data : List (String × String))
    (expiry : JVal) : Bool × List Cmd × RedisSt :=
  if !validateKey key then (false, [], st)
  else
    match redisHmset ok st key data with
    | none => (false, [.hmsetC key data], st)
    | some st' =>
      if truthy expiry then (true, [.hmsetC key data, .expireC key expiry], st')
      else (true, [.hmsetC key data], st')

/-- Modelled from the spec: the operation `add` is exported by the package
and exercised by its tests, but its definition is not under src/.  Per the
spec it validates the key, performs `has(key)`, returns false without
writing when the key exists, and otherwise performs
`put(key, value, ttlSeconds)` and returns put's result. -/
def add (ok : Bool) (st : RedisSt) (key value expiry : JVal) : Bool × List Cmd × RedisSt :=
  if !validateKey key then (false, [], st)
  else
    let (present, t1) := has ok st key
    if present then (false, t1, st)
    else
      let (r, t2, st') := put ok st key value expiry
      (r, t1 ++ t2, st')

/-! Configuration and connection topology. -/

/-- The environment variables the module reads. -/
structure Env where
  cacheHost : Option String
  cachePort : Option String
  cachePassword : Option String

/-- Truthiness of a process.env entry (a string whenever present). -/
def envTruthy : Option String → Bool
  | some s => !(s == "")
  | none => false

/-- A user-supplied configuration object; an absent property is `undef`. -/
structure UserConfig where
  cacheHost : JVal
  cachePort : JVal
  cachePassword : JVal

/-- The module-level `configuration` object. -/
structure Configuration where
  cachePort : JVal
  cacheHost : JVal
  cachePassword : JVal

/-- The built-in defaults the module starts from. -/
def defaultConfiguration : Configuration :=
  ⟨.num 6379, .str "127.0.0.1", .undef⟩

/-- One field of `configure`: the environment value when truthy, else the
user-configuration value when the object is truthy and the property truthy,
else the field keeps its current value. -/
def configField (envv : Option String) (config : Option UserConfig)
    (sel : UserConfig → JVal) (old : JVal) : JVal :=
  if envTruthy envv then .str (envv.getD "")
  else
    match config with
    | some c => if truthy (sel c) then sel c else old
    | none => old

/-- Whether a configure call supplies a field: the configuration object must
be truthy and its property truthy, mirroring `config && config.field`. -/
def suppliesField (config : Option UserConfig) (sel : UserConfig → JVal) : Bool :=
  match config with
  | some c => truthy (sel c)
  | none => false

/-- Operation `configure` from src/index.js, mutating the module-level
configuration field by field. -/
def configure (env : Env) (config : Option UserConfig) (st : Configuration) : Configuration :=
  { cacheHost := configField env.cacheHost config (fun c => c.cacheHost) st.cacheHost
    cachePort := configField env.cachePort config (fun c => c.cachePort) st.cachePort
    cachePassword := configField env.cachePassword config (fun c => c.cachePassword) st.cachePassword }

/-- Connection topology selected by `run`; a cluster node carries the host
together with the port value read from the environment. -/
inductive Topology where
  | single (host : String) (port : JVal)
  | cluster (nodes : List (String × Option String))

/-- JS `host.indexOf(',') < 1` (true also when no comma occurs, since
`indexOf` then returns -1). -/
def indexOfCommaLt1 (s : String) : Bool :=
  match s.data.findIdx? (fun c => c == ',') with
  | none => true
  | some i => i == 0

/-- Model of `run` from src/index.js restricted to topology selection
(the event subscriptions and `auth` call have no bearing on it); `none` is a
thrown TypeError.  Note the source's cluster branch reads
`process.env.cacheHost` and `process.env.cachePort`, not the merged
configuration. -/
def run (env : Env) (cfg : Configuration) : Option Topology :=
  match cfg.cacheHost with
  | .str h =>
    if indexOfCommaLt1 h then some (.single h cfg.cachePort)
    else
      match env.cacheHost with
      | some eh => some (.cluster ((eh.splitOn ",").map (fun host => (host, env.cachePort))))
      | none => none
  | _ => none

/-! Codec correctness: the parser inverts the renderer on every
JSON-representable value, which is what makes `put` followed by `get` the
identity. -/

/-- A character list whose head, if any, is not a decimal digit; what
follows a rendered number in rendered JSON always satisfies this. -/
def noDigitHead : List Char → Bool
  | [] => true
  | c :: _ => !c.isDigit

theorem digitChar_isDigit (n : Nat) : (digitChar n).isDigit = true := by
  unfold digitChar
  split <;> decide

theorem charDigit_digitChar (n : Nat) (h : n < 10) : charDigit (digitChar n) = n := by
  interval_cases n <;> decide

theorem natCharsAux_cons (f n : Nat) :
    ∃ c cs, natCharsAux f n = c :: cs ∧ c.isDigit = true := by
  induction f generalizing n with
  | zero => exact ⟨digitChar n, [], rfl, digitChar_isDigit n⟩
  | succ f ih =>
    by_cases h : n < 10
    · exact ⟨digitChar n, [], by simp [natCharsAux, h], digitChar_isDigit n⟩
    · obtain ⟨c, cs, he, hd⟩ := ih (n / 10)
      exact ⟨c, cs ++ [digitChar (n % 10)], by simp [natCharsAux, h, he], hd⟩

theorem parseNatAux_natCharsAux (f : Nat) :
    ∀ n acc rest, n ≤ f →
      parseNatAux (natCharsAux f n ++ rest) acc =
        parseNatAux rest (acc * 10 ^ (natCharsAux f n).length + n) := by
  induction f with
  | zero =>
    intro n acc rest hn
    have hn0 : n = 0 := Nat.le_zero.mp hn
    subst hn0
    simp [natCharsAux, parseNatAux, digitChar_isDigit, charDigit_digitChar]
  | succ f ih =>
    intro n acc rest hn
    by_cases h : n < 10
    · simp [natCharsAux, h, parseNatAux, digitChar_isDigit, charDigit_digitChar n h]
    · have hrec : n / 10 ≤ f := by
        have := Nat.div_lt_self (by omega : 0 < n) (by omega : 1 < (10 : Nat))
        omega
      have hm : n % 10 < 10 := Nat.mod_lt _ (by omega)
      rw [natCharsAux]
      simp only [if_neg h, List.append_assoc, List.cons_append, List.nil_append]
      rw [ih (n / 10) acc (digitChar (n % 10) :: rest) hrec]
      rw [parseNatAux]
      simp only [digitChar_isDigit, if_pos, charDigit_digitChar _ hm]
      have hlen : (natCharsAux f (n / 10) ++ [digitChar (n % 10)]).length =
          (natCharsAux f (n / 10)).length + 1 := by simp
      rw [hlen]
      congr 1
      rw [pow_succ, ← Nat.mul_assoc]
      have hdm := Nat.div_add_mod n 10
      generalize acc * 10 ^ (natCharsAux f (n / 10)).length = A
      omega

theorem parseNatAux_stop (rest : List Char) (n : Nat) (h : noDigitHead rest = true) :
    parseNatAux rest n = (n, rest) := by
  cases rest with
  | nil => rfl
  | cons c cs =>
    have hd : c.isDigit = false := by simpa [noDigitHead] using h
    simp [parseNatAux, hd]

theorem parseNum_natChars (n : Nat) (rest : List Char) (h : noDigitHead rest = true) :
    parseNum (natChars n ++ rest) = some (n, rest) := by
  obtain ⟨c, cs, he, hd⟩ := natCharsAux_cons n n
  rw [natChars, he, List.cons_append, parseNum, if_pos hd, ← List.cons_append, ← he,
    ← natChars, natChars, parseNatAux_natCharsAux n n 0 rest le_rfl,
    parseNatAux_stop rest _ h]
  simp

theorem parseStrAux_quote (rest acc : List Char) :
    parseStrAux ('"' :: rest) acc = some (String.mk acc.reverse, rest) := by
  rw [parseStrAux.eq_def]; rfl

theorem parseStrAux_escQuote (rest acc : List Char) :
    parseStrAux ('\\' :: '"' :: rest) acc = parseStrAux rest ('"' :: acc) := by
  rw [parseStrAux.eq_def]; rfl

theorem parseStrAux_escBack (rest acc : List Char) :
    parseStrAux ('\\' :: '\\' :: rest) acc = parseStrAux rest ('\\' :: acc) := by
  rw [parseStrAux.eq_def]; rfl

theorem parseStrAux_other (c : Char) (rest acc : List Char)
    (h1 : ¬(c = '"')) (h2 : ¬(c = '\\')) :
    parseStrAux (c :: rest) acc = parseStrAux rest (c :: acc) := by
  rw [parseStrAux.eq_def]
  simp only [if_neg h1, if_neg h2]

theorem stringMk_data (s : String) : String.mk s.data = s := rfl

theorem escChar_quote : escChar '"' = ['\\', '"'] := rfl

theorem escChar_back : escChar '\\' = ['\\', '\\'] := rfl

theorem escChar_other (c : Char) (h1 : ¬(c = '"')) (h2 : ¬(c = '\\')) :
    escChar c = [c] := by
  simp [escChar, h1, h2]

theorem parseStrAux_escList (s : List Char) :
    ∀ acc rest, parseStrAux (escList s ++ '"' :: rest) acc =
      some (String.mk (acc.reverse ++ s), rest) := by
  induction s with
  | nil =>
    intro acc rest
    simp only [escList, List.nil_append, parseStrAux_quote, List.append_nil]
  | cons c cs ih =>
    intro acc rest
    by_cases h1 : c = '"'
    · subst h1
      simp only [escList, escChar_quote, List.cons_append, List.append_assoc,
        List.nil_append]
      rw [parseStrAux_escQuote, ih ('"' :: acc) rest]
      simp
    · by_cases h2 : c = '\\'
      · subst h2
        simp only [escList, escChar_back, List.cons_append, List.append_assoc,
          List.nil_append]
        rw [parseStrAux_escBack, ih ('\\' :: acc) rest]
        simp
      · simp only [escList, escChar_other c h1 h2, List.cons_append,
          List.nil_append]
        rw [parseStrAux_other c _ _ h1 h2, ih (c :: acc) rest]
        simp

theorem parserAt_succ (f : Nat) :
    parserAt (f + 1) =
      ⟨valStep (parserAt f), itemsStep (parserAt f), fieldsStep (parserAt f)⟩ := by
  rw [parserAt]

theorem parseVal_succ (f : Nat) (input : List Char) :
    parseVal (f + 1) input = valStep (parserAt f) input := by
  rw [show parseVal (f + 1) input = (parserAt (f + 1)).val input from rfl, parserAt_succ]

theorem parseItems_succ (f : Nat) (input : List Char) :
    parseItems (f + 1) input =
      (match parseVal f input with
       | some (v, rest) =>
         match rest with
         | ',' :: rest' => itemsCons v (parseItems f rest')
         | ']' :: rest' => some ([v], rest')
         | _ => none
       | none =>
         match input with
         | ']' :: rest => some ([], rest)
         | _ => none) := by
  rw [show parseItems (f + 1) input = (parserAt (f + 1)).items input from rfl, parserAt_succ]
  rfl

theorem parseFields_succ (f : Nat) (input : List Char) :
    parseFields (f + 1) input =
      (match input with
       | '"' :: cs =>
         match parseStrAux cs [] with
         | some (k, r1) =>
           match r1 with
           | ':' :: r2 =>
             match parseVal f r2 with
             | some (v, rest) =>
               match rest with
               | ',' :: rest' => fieldsCons k v (parseFields f rest')
               | '}' :: rest' => some ([(k, v)], rest')
               | _ => none
             | none => none
           | _ => none
         | none => none
       | '}' :: rest => some ([], rest)
       | _ => none) := by
  rw [show parseFields (f + 1) input = (parserAt (f + 1)).props input from rfl, parserAt_succ]
  rfl

theorem parseVal_zero (l : List Char) : parseVal 0 l = none := by
  rw [show parseVal 0 l = (parserAt 0).val l from rfl, parserAt]

theorem parseVal_null (f : Nat) (rest : List Char) :
    parseVal (f + 1) ('n' :: 'u' :: 'l' :: 'l' :: rest) = some (.null, rest) := by
  rw [parseVal_succ]; rfl

theorem parseVal_true (f : Nat) (rest : List Char) :
    parseVal (f + 1) ('t' :: 'r' :: 'u' :: 'e' :: rest) = some (.bool true, rest) := by
  rw [parseVal_succ]; rfl

theorem parseVal_false (f : Nat) (rest : List Char) :
    parseVal (f + 1) ('f' :: 'a' :: 'l' :: 's' :: 'e' :: rest) = some (.bool false, rest) := by
  rw [parseVal_succ]; rfl

theorem parseVal_quote (f : Nat) (cs : List Char) :
    parseVal (f + 1) ('"' :: cs) =
      (match parseStrAux cs [] with
       | some (s, rest) => some (.str s, rest)
       | none => none) := by
  rw [parseVal_succ]; rfl

theorem parseVal_lbracket (f : Nat) (cs : List Char) :
    parseVal (f + 1) ('[' :: cs) =
      (match parseItems f cs with
       | some (xs, rest) => some (.arr xs, rest)
       | none => none) := by
  rw [parseVal_succ]; rfl

theorem parseVal_lbrace (f : Nat) (cs : List Char) :
    parseVal (f + 1) ('{' :: cs) =
      (match parseFields f cs with
       | some (fs, rest) => some (.obj fs, rest)
       | none => none) := by
  rw [parseVal_succ]; rfl

theorem parseVal_minus (f : Nat) (cs : List Char) :
    parseVal (f + 1) ('-' :: cs) =
      (match parseNum cs with
       | some (n, rest) => some (.num (-(n : Int)), rest)
       | none => none) := by
  rw [parseVal_succ]; rfl

theorem parseVal_digitHead (f : Nat) (c : Char) (cs : List Char) (hd : c.isDigit = true) :
    parseVal (f + 1) (c :: cs) =
      (match parseNum (c :: cs) with
       | some (n, rest) => some (.num (n : Int), rest)
       | none => none) := by
  have h1 : ¬(c = 'n') := by rintro rfl; exact absurd hd (by decide)
  have h2 : ¬(c = 't') := by rintro rfl; exact absurd hd (by decide)
  have h3 : ¬(c = 'f') := by rintro rfl; exact absurd hd (by decide)
  have h4 : ¬(c = '"') := by rintro rfl; exact absurd hd (by decide)
  have h5 : ¬(c = '[') := by rintro rfl; exact absurd hd (by decide)
  have h6 : ¬(c = '{') := by rintro rfl; exact absurd hd (by decide)
  have h7 : ¬(c = '-') := by rintro rfl; exact absurd hd (by decide)
  rw [parseVal_succ, valStep.eq_def]
  simp only [if_neg h1, if_neg h2, if_neg h3, if_neg h4, if_neg h5, if_neg h6, if_neg h7,
    if_pos hd]

theorem parseVal_rbracket (f : Nat) (rest : List Char) :
    parseVal f (']' :: rest) = none := by
  cases f with
  | zero => exact parseVal_zero _
  | succ f => rw [parseVal_succ]; rfl

theorem natChars_cons (n : Nat) : ∃ c cs, natChars n = c :: cs ∧ c.isDigit = true := by
  obtain ⟨c, cs, he, hd⟩ := natCharsAux_cons n n
  exact ⟨c, cs, by rw [natChars, he], hd⟩

theorem render_pos (v : JVal) : 0 < (render v).length := by
  cases v with
  | undef => simp [render]
  | null => simp [render]
  | bool b => cases b <;> simp [render]
  | num i =>
    cases i with
    | ofNat n =>
      obtain ⟨c, cs, he, _⟩ := natChars_cons n
      simp [render, intChars, he]
    | negSucc m => simp [render, intChars]
  | str s => simp [render, renderStr]
  | arr xs => simp [render]
  | obj fs => simp [render]

theorem parse_render (f : Nat) :
    (∀ v rest, isJson v = true → noDigitHead rest = true → (render v).length ≤ f →
      parseVal f (render v ++ rest) = some (v, rest)) ∧
    (∀ xs rest, isJsonList xs = true → noDigitHead rest = true →
      (renderArr xs).length + 1 ≤ f →
      parseItems f (renderArr xs ++ ']' :: rest) = some (xs, rest)) ∧
    (∀ fs rest, isJsonFields fs = true → noDigitHead rest = true →
      (renderFields fs).length + 1 ≤ f →
      parseFields f (renderFields fs ++ '}' :: rest) = some (fs, rest)) := by
  induction f with
  | zero =>
    refine ⟨?_, ?_, ?_⟩
    · intro v rest _ _ hlen
      exact absurd hlen (by have := render_pos v; omega)
    · intro xs rest _ _ hlen
      exact absurd hlen (by omega)
    · intro fs rest _ _ hlen
      exact absurd hlen (by omega)
  | succ f ih =>
    obtain ⟨ihV, ihI, ihF⟩ := ih
    refine ⟨?_, ?_, ?_⟩
    · intro v rest hj hnd hlen
      cases v with
      | undef => simp [isJson] at hj
      | null => exact parseVal_null f rest
      | bool b =>
        cases b with
        | false => exact parseVal_false f rest
        | true => exact parseVal_true f rest
      | num i =>
        cases i with
        | ofNat n =>
          obtain ⟨c, cs, he, hd⟩ := natChars_cons n
          have hre : render (JVal.num (Int.ofNat n)) = natChars n := rfl
          rw [hre, he, List.cons_append, parseVal_digitHead f c (cs ++ rest) hd,
            ← List.cons_append, ← he, parseNum_natChars n rest hnd]
          rfl
        | negSucc m =>
          have hre : render (JVal.num (Int.negSucc m)) = '-' :: natChars (m + 1) := rfl
          rw [hre, List.cons_append, parseVal_minus f (natChars (m + 1) ++ rest),
            parseNum_natChars (m + 1) rest hnd]
          show some (JVal.num (-((m + 1 : Nat) : Int)), rest) =
            some (JVal.num (Int.negSucc m), rest)
          have hneg : (-((m + 1 : Nat) : Int)) = Int.negSucc m := by
            simp [Int.negSucc_eq]
          rw [hneg]
      | str s =>
        have hre : render (JVal.str s) = '"' :: (escList s.data ++ ['"']) := rfl
        rw [hre, List.cons_append, parseVal_quote]
        rw [show (escList s.data ++ ['"']) ++ rest = escList s.data ++ '"' :: rest by simp]
        rw [parseStrAux_escList s.data [] rest]
        simp [stringMk_data]
      | arr xs =>
        have hj' : isJsonList xs = true := by simpa [isJson] using hj
        have hre : render (JVal.arr xs) = '[' :: (renderArr xs ++ [']']) := rfl
        rw [hre] at hlen
        simp only [List.length_cons, List.length_append, List.length_singleton] at hlen
        rw [hre, List.cons_append, parseVal_lbracket]
        rw [show (renderArr xs ++ [']']) ++ rest = renderArr xs ++ ']' :: rest by simp]
        rw [ihI xs rest hj' hnd (by omega)]
      | obj fs =>
        have hj' : isJsonFields fs = true := by simpa [isJson] using hj
        have hre : render (JVal.obj fs) = '{' :: (renderFields fs ++ ['}']) := rfl
        rw [hre] at hlen
        simp only [List.length_cons, List.length_append, List.length_singleton] at hlen
        rw [hre, List.cons_append, parseVal_lbrace]
        rw [show (renderFields fs ++ ['}']) ++ rest = renderFields fs ++ '}' :: rest by simp]
        rw [ihF fs rest hj' hnd (by omega)]
    · intro xs rest hj hnd hlen
      cases xs with
      | nil =>
        rw [show renderArr ([] : List JVal) = [] from rfl, List.nil_append]
        rw [parseItems_succ]
        simp [parseVal_rbracket]
      | cons x xs' =>
        cases xs' with
        | nil =>
          have hjx : isJson x = true := by simpa [isJsonList] using hj
          have hre : renderArr [x] = render x := rfl
          rw [hre] at hlen
          rw [hre]
          rw [parseItems_succ]
          simp only [ihV x (']' :: rest) hjx rfl (by omega)]
        | cons y ys =>
          have hj2 : isJson x = true ∧ isJsonList (y :: ys) = true := by
            simpa [isJsonList, Bool.and_eq_true] using hj
          have hre : renderArr (x :: y :: ys) = render x ++ ',' :: renderArr (y :: ys) := rfl
          rw [hre] at hlen
          simp only [List.length_append, List.length_cons] at hlen
          rw [hre]
          rw [show (render x ++ ',' :: renderArr (y :: ys)) ++ ']' :: rest =
            render x ++ (',' :: (renderArr (y :: ys) ++ ']' :: rest)) by simp]
          rw [parseItems_succ]
          simp only [ihV x (',' :: (renderArr (y :: ys) ++ ']' :: rest)) hj2.1 rfl (by omega),
            ihI (y :: ys) rest hj2.2 hnd (by omega), itemsCons]
    · intro fs rest hj hnd hlen
      cases fs with
      | nil =>
        rw [show renderFields ([] : List (String × JVal)) = [] from rfl, List.nil_append]
        rw [parseFields_succ]
        rfl
      | cons p fs' =>
        obtain ⟨k, v⟩ := p
        cases fs' with
        | nil =>
          have hjv : isJson v = true := by simpa [isJsonFields] using hj
          have hre : renderFields [(k, v)] = renderStr k ++ ':' :: render v := rfl
          rw [hre] at hlen
          rw [show renderStr k = '"' :: (escList k.data ++ ['"']) from rfl] at hlen
          simp only [List.length_append, List.length_cons, List.length_singleton] at hlen
          rw [hre]
          rw [show (renderStr k ++ ':' :: render v) ++ '}' :: rest =
            '"' :: (escList k.data ++ ('"' :: (':' :: (render v ++ '}' :: rest)))) by
              simp [renderStr]]
          rw [parseFields_succ]
          simp only [parseStrAux_escList k.data [] (':' :: (render v ++ '}' :: rest))]
          simp only [ihV v ('}' :: rest) hjv rfl (by omega)]
          simp [stringMk_data]
        | cons q fs'' =>
          have hj2 : isJson v = true ∧ isJsonFields (q :: fs'') = true := by
            simpa [isJsonFields, Bool.and_eq_true] using hj
          have hre : renderFields ((k, v) :: q :: fs'') =
            (renderStr k ++ ':' :: render v) ++ ',' :: renderFields (q :: fs'') := rfl
          rw [hre] at hlen
          rw [show renderStr k = '"' :: (escList k.data ++ ['"']) from rfl] at hlen
          simp only [List.length_append, List.length_cons, List.length_singleton] at hlen
          rw [hre]
          rw [show ((renderStr k ++ ':' :: render v) ++ ',' :: renderFields (q :: fs'')) ++
              '}' :: rest =
            '"' :: (escList k.data ++ ('"' :: (':' :: (render v ++
              (',' :: (renderFields (q :: fs'') ++ '}' :: rest)))))) by simp [renderStr]]
          rw [parseFields_succ]
          simp only [parseStrAux_escList k.data []
            (':' :: (render v ++ (',' :: (renderFields (q :: fs'') ++ '}' :: rest))))]
          simp only [ihV v (',' :: (renderFields (q :: fs'') ++ '}' :: rest)) hj2.1 rfl
            (by omega)]
          simp only [ihF (q :: fs'') rest hj2.2 hnd (by omega), fieldsCons]
          simp [stringMk_data]

theorem stringify_isJson (v : JVal) (hv : isJson v = true) :
    stringify v = some (String.mk (render v)) := by
  cases v with
  | undef => simp [isJson] at hv
  | null => rfl
  | bool b => rfl
  | num i => rfl
  | str s => rfl
  | arr xs => rfl
  | obj fs => rfl

theorem jsonParse_render (v : JVal) (hv : isJson v = true) :
    jsonParse (String.mk (render v)) = some v := by
  have h := (parse_render ((render v).length + 1)).1 v [] hv rfl (by omega)
  rw [List.append_nil] at h
  rw [jsonParse.eq_def]
  simp only [show (String.mk (render v)).data = render v from rfl]
  rw [h]


/-! Association-list facts used by the operation theorems. -/

theorem alookup_aerase {α : Type} (l : List (String × α)) (k : String) :
    alookup (aerase l k) k = none := by
  induction l with
  | nil => rfl
  | cons p tl ih =>
    obtain ⟨k', v⟩ := p
    by_cases h : k' = k
    · simpa [aerase, h] using ih
    · simpa [aerase, alookup, h] using ih

theorem alookup_cons_self {α : Type} (l : List (String × α)) (k : String) (v : α) :
    alookup ((k, v) :: l) k = some v := by
  simp [alookup]

/-! Claim C1.  The claim says every public operation taking a primary key
validates it first and, on an invalid key, returns its failure value without
issuing any store command and without throwing.  That is refuted by `has`
(and by `forget`/`destroy`): both hand the raw key to the store with no
validation. -/

/-- Claim C1, counterexample: `has` called on the invalid key `null` puts an
`EXISTS null` command on the wire, contradicting "never contacts the
store"; only the caught rejection makes it return false. -/
theorem c1_counterexample :
    (has true emptySt JVal.null).2 = [Cmd.existsC JVal.null] ∧
    (has true emptySt JVal.null).2 ≠ ([] : List Cmd) :=
  ⟨rfl, fun h => List.noConfusion h⟩

/-- Claim C1 as amended: `get`, `put`, `pull`/`pop`, `remember`,
`multiget`, `multiput` and the spec-modelled `add` short-circuit on an
invalid key with their documented failure value, an empty command trace and
an unchanged store; `has` does not validate — it issues `EXISTS` with the
raw key and only the caught rejection yields false — and `forget`/`destroy`
issues `DEL` with the raw key unconditionally.  None of them throws. -/
theorem c1_amended (ok : Bool) (st : RedisSt) (key expiry value : JVal)
    (data : List (String × String)) (fields : List String) (dv : DefaultValue)
    (h : validateKey key = false) :
    get ok st key = (JVal.null, []) ∧
    put ok st key value expiry = (false, [], st) ∧
    pop ok st key = (JVal.null, [], st) ∧
    remember ok st key expiry dv = (JVal.null, [], st, false) ∧
    multiget ok st key fields = (JVal.obj [], []) ∧
    multiput ok st key data expiry = (false, [], st) ∧
    add ok st key value expiry = (false, [], st) ∧
    has ok st key = (false, [Cmd.existsC key]) ∧
    destroy ok st key = ([Cmd.delC key], st) := by
  cases ok <;> cases key <;>
    first
      | exact Bool.noConfusion h
      | exact ⟨rfl, rfl, rfl, rfl, rfl, rfl, rfl, rfl, rfl⟩

/-- Claim C1 witness: the amended statement at the concrete invalid key
`null` against the empty store. -/
theorem c1_amended_witness :
    get true emptySt JVal.null = (JVal.null, []) ∧
    has true emptySt JVal.null = (false, [Cmd.existsC JVal.null]) ∧
    destroy true emptySt JVal.null = ([Cmd.delC JVal.null], emptySt) := by
  have h := c1_amended true emptySt JVal.null JVal.undef JVal.undef [] []
    (DefaultValue.lit JVal.undef) (by decide)
  exact ⟨h.1, h.2.2.2.2.2.2.2.1, h.2.2.2.2.2.2.2.2⟩

/-! Claim C2.  The `add` operation is absent from src/index.js (its tests
and README exercise it), so it is modelled from the spec; the theorem
relates that model to the source's `has` and `put`. -/

/-- Claim C2: for every valid key, `add` performs `has(key)`; when the key
exists it returns false having issued nothing beyond the `EXISTS`, leaving
the store unchanged; when it does not, it performs `put` and hands back
put's result, trace and store effect. -/
theorem c2_add_spec (ok : Bool) (st : RedisSt) (key value expiry : JVal)
    (hk : validateKey key = true) :
    ((has ok st key).1 = true →
      add ok st key value expiry = (false, (has ok st key).2, st)) ∧
    ((has ok st key).1 = false →
      add ok st key value expiry =
        ((put ok st key value expiry).1,
          (has ok st key).2 ++ (put ok st key value expiry).2.1,
          (put ok st key value expiry).2.2)) := by
  rcases hha : has ok st key with ⟨p, t⟩
  rcases hpa : put ok st key value expiry with ⟨r, tp, st'⟩
  constructor
  · intro hp
    simp only at hp
    simp [add, hk, hha, hp]
  · intro hp
    simp only at hp
    simp [add, hk, hha, hpa, hp]

/-- Claim C2 witness: adding to an existing key returns false without a
write, adding to an absent key stores the value and returns true. -/
theorem c2_add_spec_witness :
    add true ⟨[("k", "1")], []⟩ (JVal.str "k") (JVal.str "v") JVal.undef =
      (false, [Cmd.existsC (JVal.str "k")], ⟨[("k", "1")], []⟩) ∧
    add true emptySt (JVal.str "k") (JVal.str "v") JVal.undef =
      (true, [Cmd.existsC (JVal.str "k"),
        Cmd.setC (JVal.str "k") "\"v\"" none], ⟨[("k", "\"v\"")], []⟩) := by
  constructor
  · have h := (c2_add_spec true ⟨[("k", "1")], []⟩ (JVal.str "k") (JVal.str "v")
      JVal.undef (by decide)).1 (by decide)
    exact h
  · have h := (c2_add_spec true emptySt (JVal.str "k") (JVal.str "v")
      JVal.undef (by decide)).2 (by decide)
    exact h

/-! Claim C3.  The claim follows the spec: `run()` builds the cluster
topology from the merged `host` field, each address paired with the single
configured port.  The source's cluster branch instead reads
`process.env.cacheHost` and `process.env.cachePort` directly, although the
branch is selected by inspecting the merged host — so a comma-separated
host supplied through `configure`'s explicit configuration (environment
unset) makes `run` throw a TypeError on
`process.env.cacheHost.split(',')` rather than build the configured
cluster.  Every other use in the file goes through the merged
`configuration`, the README documents `configure` as the environment's
fallback, and the revised variant of the file shipped with the tests reads
the merged configuration here too: the claim states the intent and the
source slipped. -/

/-- Claim C3, the code bug evaluated: with no environment variables set,
configuring the comma-separated host `10.0.0.1,10.0.0.2` with port 7000
and then running selects the cluster branch yet throws (`none`), instead of
producing the cluster over those two addresses with port 7000. -/
theorem c3_run_cluster_env_bug :
    run ⟨none, none, none⟩
      (configure ⟨none, none, none⟩
        (some ⟨JVal.str "10.0.0.1,10.0.0.2", JVal.num 7000, JVal.undef⟩)
        defaultConfiguration) = none := rfl

/-- Claim C3, the selected branch shown explicitly: the same merged
configuration carries the comma-separated host, so the single-node branch
is not the one taken. -/
theorem c3_run_cluster_branch_selected :
    (configure ⟨none, none, none⟩
      (some ⟨JVal.str "10.0.0.1,10.0.0.2", JVal.num 7000, JVal.undef⟩)
      defaultConfiguration).cacheHost = JVal.str "10.0.0.1,10.0.0.2" ∧
    indexOfCommaLt1 "10.0.0.1,10.0.0.2" = false := ⟨rfl, rfl⟩

/-! Unfolding equations for the operations whose source names collide with
names exported by the ambient library (`get`, `put`, `has`), plus the store
replies on a string key; all hold by definition. -/

theorem validateKey_str (s : String) : validateKey (JVal.str s) = true := rfl

theorem redisGet_str (st : RedisSt) (s : String) :
    redisGet true st (JVal.str s) = some (alookup st.kv s) := rfl

theorem redisGet_down (st : RedisSt) (key : JVal) : redisGet false st key = none := by
  cases key <;> rfl

theorem get_invalid (ok : Bool) (st : RedisSt) (key : JVal)
    (h : validateKey key = false) : get ok st key = (JVal.null, []) := by
  cases ok <;> cases key <;> first | exact Bool.noConfusion h | rfl

theorem get_str (ok : Bool) (st : RedisSt) (s : String) :
    get ok st (JVal.str s) =
      (match redisGet ok st (JVal.str s) with
       | none => (JVal.undef, [Cmd.getC (JVal.str s)])
       | some none => (JVal.undef, [Cmd.getC (JVal.str s)])
       | some (some txt) =>
         match jsonParse txt with
         | some v => (v, [Cmd.getC (JVal.str s)])
         | none => (JVal.undef, [Cmd.getC (JVal.str s)])) := rfl

theorem put_str (ok : Bool) (st : RedisSt) (s : String) (value expiry : JVal) :
    put ok st (JVal.str s) value expiry =
      (match stringify value with
       | none => (false, [], st)
       | some payload =>
         match redisSet ok st (JVal.str s) payload with
         | some st' => (true, [Cmd.setC (JVal.str s) payload
             (if !(isNil expiry) then some expiry else none)], st')
         | none => (false, [Cmd.setC (JVal.str s) payload
             (if !(isNil expiry) then some expiry else none)], st)) := rfl

theorem redisSet_str (st : RedisSt) (s : String) (payload : String) :
    redisSet true st (JVal.str s) payload =
      some ⟨(s, payload) :: aerase st.kv s, aerase st.hv s⟩ := rfl

theorem has_str (ok : Bool) (st : RedisSt) (key : JVal) :
    has ok st key =
      (match redisExists ok st key with
       | some n => (if n != 0 then true else false, [Cmd.existsC key])
       | none => (false, [Cmd.existsC key])) := rfl

/-! Claim C4.  The claim says `remember` on any populated key returns the
stored value, skips the producer and writes nothing.  `remember` actually
treats a nil `get` result as a miss, and a populated key whose payload is
the JSON text `null` (or an undecodable payload) decodes to nil — there the
producer runs and the store is overwritten. -/

/-- Claim C4, counterexample: the key `k` is populated (payload `null`),
yet `remember` invokes the producer (final component `true`), returns the
produced value instead of the stored one, and issues a `SET` overwriting
the entry. -/
theorem c4_counterexample :
    remember true ⟨[("k", "null")], []⟩ (JVal.str "k") (JVal.num 60)
      (DefaultValue.producer (some (JVal.str "fresh"))) =
    (JVal.str "fresh",
      [Cmd.getC (JVal.str "k"),
        Cmd.setC (JVal.str "k") "\"fresh\"" (some (JVal.num 60))],
      ⟨[("k", "\"fresh\"")], []⟩, true) := rfl

/-- Claim C4 as amended: for every valid key whose stored payload decodes
to a non-nil value, `remember` returns that value unchanged, issues only the
`GET`, leaves the store untouched and never invokes the producer. -/
theorem c4_amended (st : RedisSt) (s : String) (expiry : JVal) (dv : DefaultValue)
    (txt : String) (v : JVal)
    (hl : alookup st.kv s = some txt) (hp : jsonParse txt = some v)
    (hv : isNil v = false) :
    remember true st (JVal.str s) expiry dv = (v, [Cmd.getC (JVal.str s)], st, false) := by
  have hg : get true st (JVal.str s) = (v, [Cmd.getC (JVal.str s)]) := by
    rw [get_str, redisGet_str]
    simp only [hl, hp]
  simp [remember, validateKey_str, hg, hv]

/-- Claim C4 witness: the amended statement on a store holding the payload
`7` under `k`. -/
theorem c4_amended_witness :
    remember true ⟨[("k", "7")], []⟩ (JVal.str "k") JVal.undef
      (DefaultValue.producer (some (JVal.str "x"))) =
    (JVal.num 7, [Cmd.getC (JVal.str "k")], ⟨[("k", "7")], []⟩, false) :=
  c4_amended ⟨[("k", "7")], []⟩ "k" JVal.undef
    (DefaultValue.producer (some (JVal.str "x"))) "7" (JVal.num 7) rfl rfl rfl

/-! Claim C5: a throwing or rejecting producer makes `remember` yield
absent (`undefined`) with no store write for the key. -/

/-- Claim C5: on a valid key absent from the store, a producer that throws
or rejects leaves `remember` with `undefined`; the trace holds only the
`GET` — no `SET` — and the store is unchanged (the final `true` records
that the producer was invoked). -/
theorem c5_remember_producer_throws (ok : Bool) (st : RedisSt) (s : String)
    (expiry : JVal) (hl : alookup st.kv s = none) :
    remember ok st (JVal.str s) expiry (DefaultValue.producer none) =
      (JVal.undef, [Cmd.getC (JVal.str s)], st, true) := by
  have hg : get ok st (JVal.str s) = (JVal.undef, [Cmd.getC (JVal.str s)]) := by
    cases ok
    · rw [get_str, redisGet_down]
    · rw [get_str, redisGet_str]
      simp only [hl]
  simp [remember, validateKey_str, hg, isNil]

/-- Claim C5 witness: the statement against the empty store with a
60-second expiry. -/
theorem c5_remember_producer_throws_witness :
    remember true emptySt (JVal.str "k") (JVal.num 60) (DefaultValue.producer none) =
      (JVal.undef, [Cmd.getC (JVal.str "k")], emptySt, true) :=
  c5_remember_producer_throws true emptySt "k" (JVal.num 60) rfl

/-! Claim C6: encode-then-decode through the store is the identity. -/

/-- Claim C6: for every valid key and JSON-representable value, `put`
succeeds and a `get` of the same key against the written store returns a
value structurally equal to the one stored. -/
theorem c6_put_get_roundtrip (st : RedisSt) (s : String) (v : JVal)
    (hv : isJson v = true) :
    (put true st (JVal.str s) v JVal.undef).1 = true ∧
    (get true (put true st (JVal.str s) v JVal.undef).2.2 (JVal.str s)).1 = v := by
  have hput : put true st (JVal.str s) v JVal.undef =
      (true, [Cmd.setC (JVal.str s) (String.mk (render v)) none],
        ⟨(s, String.mk (render v)) :: aerase st.kv s, aerase st.hv s⟩) := by
    rw [put_str, stringify_isJson v hv]
    simp [redisSet_str, isNil]
  rw [hput]
  refine ⟨rfl, ?_⟩
  rw [get_str, redisGet_str]
  simp only [alookup_cons_self]
  rw [jsonParse_render v hv]

/-- Claim C6 witness: a nested object survives the `put`/`get` roundtrip
against the empty store. -/
theorem c6_put_get_roundtrip_witness :
    (put true emptySt (JVal.str "k")
      (JVal.obj [("a", JVal.arr [JVal.num 1, JVal.str "x"]), ("b", JVal.null)])
      JVal.undef).1 = true ∧
    (get true (put true emptySt (JVal.str "k")
      (JVal.obj [("a", JVal.arr [JVal.num 1, JVal.str "x"]), ("b", JVal.null)])
      JVal.undef).2.2 (JVal.str "k")).1 =
      JVal.obj [("a", JVal.arr [JVal.num 1, JVal.str "x"]), ("b", JVal.null)] :=
  c6_put_get_roundtrip emptySt "k"
    (JVal.obj [("a", JVal.arr [JVal.num 1, JVal.str "x"]), ("b", JVal.null)]) (by decide)

/-! Claim C7.  The claim says `multiget` returns the raw field values
aligned with the requested field names, and "an empty result" on an invalid
key or any store error.  The alignment and the invalid-key short-circuit
hold, but the two failure results differ: an invalid key yields the empty
object `{}` while a store error is caught as `undefined` — the absent
sentinel, not an empty result. -/

/-- Claim C7, counterexample: with the store unreachable, `multiget` on a
valid key returns `undefined`, which is neither the empty sequence nor the
empty object. -/
theorem c7_counterexample :
    (multiget false emptySt (JVal.str "s") ["f1"]).1 = JVal.undef ∧
    JVal.undef ≠ JVal.arr [] ∧ JVal.undef ≠ JVal.obj [] :=
  ⟨rfl, fun h => JVal.noConfusion h, fun h => JVal.noConfusion h⟩

/-- Claim C7 as amended: `multiget` on an invalid key returns the empty
object before any command; on a reachable store it issues one `HMGET` and
returns the raw (non-decoded) field values positionally aligned with the
requested names, nil fields as `null`; a rejected command is caught as
`undefined`. -/
theorem c7_amended (ok : Bool) (st : RedisSt) (key : JVal) (fields : List String) :
    (validateKey key = false → multiget ok st key fields = (JVal.obj [], [])) ∧
    (∀ s, key = JVal.str s → alookup st.kv s = none → ok = true →
      multiget ok st key fields =
        (JVal.arr (fields.map (fun f =>
           match alookup ((alookup st.hv s).getD []) f with
           | some v => JVal.str v
           | none => JVal.null)), [Cmd.hmgetC key fields])) ∧
    (∀ s, key = JVal.str s → redisHmget ok st key fields = none →
      multiget ok st key fields = (JVal.undef, [Cmd.hmgetC key fields])) := by
  refine ⟨?_, ?_, ?_⟩
  · intro h
    cases ok <;> cases key <;> first | exact Bool.noConfusion h | rfl
  · rintro s rfl hkv rfl
    have hr : redisHmget true st (JVal.str s) fields =
        some (fields.map (fun f =>
          match alookup ((alookup st.hv s).getD []) f with
          | some v => JVal.str v
          | none => JVal.null)) := by
      simp [redisHmget, hkv]
    simp [multiget, validateKey_str, hr]
  · rintro s rfl hr
    simp [multiget, validateKey_str, hr]

/-- Claim C7 witness: the raw values of a stored hash come back aligned
with the requested field order, a missing field as `null`. -/
theorem c7_amended_witness :
    multiget true ⟨[], [("s", [("f1", "a"), ("f2", "b")])]⟩ (JVal.str "s")
      ["f2", "f1", "zz"] =
    (JVal.arr [JVal.str "b", JVal.str "a", JVal.null],
      [Cmd.hmgetC (JVal.str "s") ["f2", "f1", "zz"]]) :=
  (c7_amended true ⟨[], [("s", [("f1", "a"), ("f2", "b")])]⟩ (JVal.str "s")
    ["f2", "f1", "zz"]).2.1 "s" rfl rfl rfl

/-! Claim C8: `pop` (the spec's `pull`) is get-then-conditional-delete. -/

/-- Claim C8: `pop` performs `get`; when the result is absent (nil) it
returns it with no further command and an unchanged store; when it is
non-absent the same key is deleted right after — the trace extends by
exactly `DEL key` — and the value read is returned; afterwards `has`
reports the key gone. -/
theorem c8_pop (ok : Bool) (st : RedisSt) (key : JVal) :
    (isNil (get ok st key).1 = true →
      pop ok st key = ((get ok st key).1, (get ok st key).2, st)) ∧
    (isNil (get ok st key).1 = false →
      pop ok st key = ((get ok st key).1, (get ok st key).2 ++ [Cmd.delC key],
        (destroy ok st key).2)) ∧
    (destroy ok st key).1 = [Cmd.delC key] ∧
    (∀ s, key = JVal.str s → ok = true → isNil (get ok st key).1 = false →
      has true (pop ok st key).2.2 key = (false, [Cmd.existsC key])) := by
  rcases hg : get ok st key with ⟨res, t⟩
  refine ⟨?_, ?_, rfl, ?_⟩
  · intro h
    simp only at h
    simp [pop, hg, h]
  · intro h
    simp only at h
    simp [pop, hg, h, destroy]
  · rintro s rfl rfl h
    simp only at h
    have hpop : (pop true st (JVal.str s)).2.2 = ⟨aerase st.kv s, aerase st.hv s⟩ := by
      simp [pop, hg, h, destroy, redisDel]
    rw [hpop, has_str]
    simp [redisExists, alookup_aerase]

/-- Claim C8 witness: popping a stored value returns it, deletes the key,
and a subsequent `has` is false; popping a missing key issues no delete. -/
theorem c8_pop_witness :
    pop true ⟨[("k", "3")], []⟩ (JVal.str "k") =
      (JVal.num 3, [Cmd.getC (JVal.str "k"), Cmd.delC (JVal.str "k")], emptySt) ∧
    has true emptySt (JVal.str "k") = (false, [Cmd.existsC (JVal.str "k")]) ∧
    pop true emptySt (JVal.str "miss") = (JVal.undef, [Cmd.getC (JVal.str "miss")], emptySt) := by
  have h1 := (c8_pop true ⟨[("k", "3")], []⟩ (JVal.str "k")).2.1 (by decide)
  have h2 := (c8_pop true ⟨[("k", "3")], []⟩ (JVal.str "k")).2.2.2 "k" rfl rfl (by decide)
  have h3 := (c8_pop true emptySt (JVal.str "miss")).1 (by decide)
  exact ⟨h1, h2, h3⟩

/-! Claim C9: the two absent sentinels of `get`. -/

/-- Claim C9: `get` returns `null` exactly on an invalid key, before any
command; a store miss and an undecodable payload are both reported as
`undefined`; the two sentinels are distinct, so a caller can tell an
invalid key from a missing value. -/
theorem c9_get_sentinels (ok : Bool) (st : RedisSt) (key : JVal) :
    (validateKey key = false → get ok st key = (JVal.null, [])) ∧
    (∀ s, key = JVal.str s → alookup st.kv s = none →
      (get ok st key).1 = JVal.undef) ∧
    (∀ s txt, key = JVal.str s → alookup st.kv s = some txt → jsonParse txt = none →
      (get ok st key).1 = JVal.undef) ∧
    JVal.null ≠ JVal.undef := by
  refine ⟨get_invalid ok st key, ?_, ?_, fun h => JVal.noConfusion h⟩
  · rintro s rfl hl
    cases ok
    · rw [get_str, redisGet_down]
    · rw [get_str, redisGet_str]
      simp [hl]
  · rintro s txt rfl hl hp
    cases ok
    · rw [get_str, redisGet_down]
    · rw [get_str, redisGet_str]
      simp [hl, hp]

/-- Claim C9 witness: the sentinels on concrete inputs — `null` for the nil
key, `undefined` for a never-set key and for a corrupt payload. -/
theorem c9_get_sentinels_witness :
    get true emptySt JVal.null = (JVal.null, []) ∧
    (get true emptySt (JVal.str "miss")).1 = JVal.undef ∧
    (get true ⟨[("k", "\x7b")], []⟩ (JVal.str "k")).1 = JVal.undef := by
  refine ⟨(c9_get_sentinels true emptySt JVal.null).1 (by decide),
    (c9_get_sentinels true emptySt (JVal.str "miss")).2.1 "miss" rfl rfl,
    (c9_get_sentinels true ⟨[("k", "\x7b")], []⟩ (JVal.str "k")).2.2.1 "k" "\x7b" rfl rfl rfl⟩

/-! Claim C10: `configure` merges onto persistent module-level state. -/

theorem configField_skip (envv : Option String) (config : Option UserConfig)
    (sel : UserConfig → JVal) (old : JVal)
    (he : envTruthy envv = false) (hc : suppliesField config sel = false) :
    configField envv config sel old = old := by
  cases config with
  | none => simp [configField, he]
  | some c =>
    have ht : truthy (sel c) = false := by simpa [suppliesField] using hc
    simp [configField, he, ht]

theorem configField_cases (envv : Option String) (config : Option UserConfig)
    (sel : UserConfig → JVal) (old : JVal) :
    configField envv config sel old = old ∨
    (∃ s, envv = some s ∧ configField envv config sel old = JVal.str s) ∨
    (∃ c, config = some c ∧ configField envv config sel old = sel c) := by
  by_cases he : envTruthy envv = true
  · cases envv with
    | none => simp [envTruthy] at he
    | some s =>
      right; left
      exact ⟨s, rfl, by simp [configField, he]⟩
  · have he' : envTruthy envv = false := by
      cases h : envTruthy envv
      · rfl
      · exact absurd h he
    cases config with
    | none => left; simp [configField, he']
    | some c =>
      cases ht : truthy (sel c) with
      | false => left; simp [configField, he', ht]
      | true =>
        right; right
        exact ⟨c, rfl, by simp [configField, he', ht]⟩

/-- Claim C10: each configuration field established earlier survives any
later `configure` call that supplies neither an environment value nor a
truthy explicit value for it; and no call ever resets a field — its new
value is always the old one, the environment's, or the explicitly supplied
one (never the built-in default out of nowhere). -/
theorem c10_configure_persistence (env : Env) (config : Option UserConfig)
    (st : Configuration) :
    ((envTruthy env.cacheHost = false →
        suppliesField config (fun c => c.cacheHost) = false →
        (configure env config st).cacheHost = st.cacheHost) ∧
      (envTruthy env.cachePort = false →
        suppliesField config (fun c => c.cachePort) = false →
        (configure env config st).cachePort = st.cachePort) ∧
      (envTruthy env.cachePassword = false →
        suppliesField config (fun c => c.cachePassword) = false →
        (configure env config st).cachePassword = st.cachePassword)) ∧
    (((configure env config st).cacheHost = st.cacheHost ∨
        (∃ s, env.cacheHost = some s ∧ (configure env config st).cacheHost = JVal.str s) ∨
        (∃ c, config = some c ∧ (configure env config st).cacheHost = c.cacheHost)) ∧
      ((configure env config st).cachePort = st.cachePort ∨
        (∃ s, env.cachePort = some s ∧ (configure env config st).cachePort = JVal.str s) ∨
        (∃ c, config = some c ∧ (configure env config st).cachePort = c.cachePort)) ∧
      ((configure env config st).cachePassword = st.cachePassword ∨
        (∃ s, env.cachePassword = some s ∧
          (configure env config st).cachePassword = JVal.str s) ∨
        (∃ c, config = some c ∧ (configure env config st).cachePassword = c.cachePassword))) := by
  refine ⟨⟨?_, ?_, ?_⟩, ?_, ?_, ?_⟩
  · intro he hc
    exact configField_skip env.cacheHost config (fun c => c.cacheHost) st.cacheHost he hc
  · intro he hc
    exact configField_skip env.cachePort config (fun c => c.cachePort) st.cachePort he hc
  · intro he hc
    exact configField_skip env.cachePassword config (fun c => c.cachePassword)
      st.cachePassword he hc
  · exact configField_cases env.cacheHost config (fun c => c.cacheHost) st.cacheHost
  · exact configField_cases env.cachePort config (fun c => c.cachePort) st.cachePort
  · exact configField_cases env.cachePassword config (fun c => c.cachePassword) st.cachePassword

/-- Claim C10 witness: a host set by an earlier call from explicit
configuration survives a later call that only supplies a port, with the
environment empty throughout. -/
theorem c10_configure_persistence_witness :
    (configure ⟨none, none, none⟩ (some ⟨JVal.undef, JVal.num 9999, JVal.undef⟩)
      (configure ⟨none, none, none⟩ (some ⟨JVal.str "h1", JVal.num 7000, JVal.undef⟩)
        defaultConfiguration)).cacheHost = JVal.str "h1" :=
  (c10_configure_persistence ⟨none, none, none⟩
    (some ⟨JVal.undef, JVal.num 9999, JVal.undef⟩)
    (configure ⟨none, none, none⟩ (some ⟨JVal.str "h1", JVal.num 7000, JVal.undef⟩)
      defaultConfiguration)).1.1 (by decide) (by decide)
